import Mathlib

/- Verification development for the FileCompressor repository
   (src/FileCompressor.js): an in-memory ZIP archive encoder.

   Modelling conventions:
   - byte buffers (ArrayBuffer / Uint8Array / Blob contents) are `List Nat`,
     each element standing for one stored byte;
   - the external compression primitive (`CompressionStream('deflate')`,
     together with the writer/reader pumping in `#streamToBlob`) is an
     explicit parameter `comp : List Nat → Except ε (List Nat)` mapping the
     payload bytes to the transform's concatenated output bytes, or to an
     error when the transform fails;
   - a `File` is modelled by `JSFile`: its name already encoded to bytes
     (`#encodeFilename` / TextEncoder, applied externally) and its payload
     bytes (`file.arrayBuffer()`);
   - a `Blob` is its concatenated bytes plus its MIME type string;
   - `DataView.setUint16/setUint32` write little-endian and truncate the
     value to 16/32 bits, modelled by `le16`/`le32`;
   - JavaScript `Map` is modelled by an association list onto which
     `Map.set` conses (so `List.lookup` finds the most recent binding,
     matching `Map.get` after overwriting `set`). -/

namespace FileCompressor

/-- A named byte payload; `name` is the byte encoding of the filename. -/
structure JSFile where
  name : List Nat
  data : List Nat
deriving DecidableEq, Inhabited, Repr

/-- A Blob: its concatenated bytes plus its MIME type string. -/
structure Blob where
  data : List Nat
  type : String
deriving DecidableEq, Repr

/-- Bytes written by `DataView.setUint16(offset, value, true)`:
little-endian, value truncated to 16 bits (source `#writeUint16`). -/
def le16 (v : Nat) : List Nat := [v % 256, v / 256 % 256]

/-- Bytes written by `DataView.setUint32(offset, value, true)`:
little-endian, value truncated to 32 bits (source `#writeUint32`). -/
def le32 (v : Nat) : List Nat := [v % 256, v / 256 % 256, v / 65536 % 256, v / 16777216 % 256]

/-- One iteration of the inner loop of the CRC table construction
(source line 38): shift right one bit, conditionally xor the reflected
polynomial 0xEDB88320. -/
def crcStep (c : Nat) : Nat := if c % 2 = 1 then (c / 2) ^^^ 0xEDB88320 else c / 2

/-- Eight iterations of `crcStep` (the `for j in 0..7` loop, source 37-39). -/
def crcStep8 (c : Nat) : Nat :=
  crcStep (crcStep (crcStep (crcStep (crcStep (crcStep (crcStep (crcStep c)))))))

/-- The 256-entry CRC lookup table built by `#calculateCRC32`
(source lines 34-41): entry `i` is `crcStep8 i`. -/
def crcTable : List Nat := (List.range 256).map crcStep8

/-- Source `#calculateCRC32` (lines 33-49): table-driven CRC-32 with
initial register 0xFFFFFFFF and final xor 0xFFFFFFFF.  All intermediate
values stay below 2^32, so the trailing JavaScript `>>> 0` is the
identity and is not modelled separately. -/
def calculateCRC32 (data : List Nat) : Nat :=
  (data.foldl (fun crc b => (crc >>> 8) ^^^ crcTable.getD ((crc ^^^ b) &&& 255) 0) 0xFFFFFFFF)
    ^^^ 0xFFFFFFFF

/-- Modelled from the spec: the standard reflected CRC-32 (polynomial
0xEDB88320, bit-at-a-time, no lookup table), initial register 0xFFFFFFFF,
final xor with 0xFFFFFFFF, result truncated to 32 bits.  This is the
reference definition that `calculateCRC32` is compared against. -/
def crc32_spec (data : List Nat) : Nat :=
  ((data.foldl (fun crc b => crcStep8 (crc ^^^ b)) 0xFFFFFFFF) ^^^ 0xFFFFFFFF) % 4294967296

/-- Lowercase hexadecimal digit character, as produced by JavaScript
`Number.prototype.toString(16)`. -/
def hexDigitChar (n : Nat) : Char := if n < 10 then Char.ofNat (48 + n) else Char.ofNat (87 + n)

/-- Recursion scheme for hexadecimal digit extraction, structurally
recursive on a fuel argument so that it evaluates inside the kernel.  The
fuel-exhausted branch can only be reached with a single digit left when
the fuel starts at `n` (each step divides the value by 16 and spends one
unit). -/
def natToHexAux : Nat → Nat → List Char
  | 0, n => [hexDigitChar n]
  | fuel + 1, n =>
      if n < 16 then [hexDigitChar n]
      else natToHexAux fuel (n / 16) ++ [hexDigitChar (n % 16)]

/-- Lowercase hexadecimal digits of `n`, most significant first, as
produced by `n.toString(16)` for a nonnegative integer. -/
def natToHex (n : Nat) : List Char := natToHexAux n n

/-- Source lines 124-125: `adler32.toString(16).padStart(8, '0')` encoded
to bytes.  The characters are ASCII, so TextEncoder yields their code
points. -/
def adlerComment (adler32 : Nat) : List Nat :=
  (List.replicate (8 - (natToHex adler32).length) (Char.ofNat 48) ++ natToHex adler32).map
    Char.toNat

/-- Big-endian uint32 read of the first four bytes of a buffer
(`DataView.getUint32(0, false)`).  A Uint8Array stores each element
modulo 256, hence the reductions. -/
def beU32 : List Nat → Nat
  | b0 :: b1 :: b2 :: b3 :: _ =>
      (b0 % 256) * 16777216 + (b1 % 256) * 65536 + (b2 % 256) * 256 + (b3 % 256)
  | _ => 0

/-- The zlib-wrapper detection and stripping of source lines 86-96,
together with the entry checksum defaulting of line 123 for a name with
no earlier map binding: a buffer of length at least 6 whose first byte is
0x78 is split into `slice(2, length - 4)` plus its big-endian Adler-32
trailer; anything else passes through unchanged with checksum 0. -/
def reframe (wrapped : List Nat) : List Nat × Nat :=
  if 6 ≤ wrapped.length ∧ wrapped.headD 0 = 0x78 then
    ((wrapped.drop 2).take (wrapped.length - 6), beU32 (wrapped.drop (wrapped.length - 4)))
  else
    (wrapped, 0)

/-- The 30-byte local file header plus filename bytes written at source
lines 101-116.  Bytes 12-13 (last-mod date) are never written and stay at
the ArrayBuffer zero initialisation. -/
def localHeaderBytes (crc32 compressedSize uncompressedSize : Nat)
    (filenameBytes : List Nat) : List Nat :=
  le32 0x04034b50 ++ le16 20 ++ le16 0 ++ le16 8 ++ le16 0 ++ le16 0 ++
  le32 crc32 ++ le32 compressedSize ++ le32 uncompressedSize ++
  le16 filenameBytes.length ++ le16 0 ++ filenameBytes

/-- The 46-byte central directory header plus filename and comment bytes
written at source lines 127-150. -/
def centralHeaderBytes (crc32 compressedSize uncompressedSize : Nat)
    (filenameBytes commentBytes : List Nat) (offset : Nat) : List Nat :=
  le32 0x02014b50 ++ le16 20 ++ le16 20 ++ le16 0 ++ le16 8 ++ le16 0 ++ le16 0 ++
  le32 crc32 ++ le32 compressedSize ++ le32 uncompressedSize ++
  le16 filenameBytes.length ++ le16 0 ++ le16 commentBytes.length ++
  le16 0 ++ le16 0 ++ le32 0 ++ le32 offset ++ filenameBytes ++ commentBytes

/-- The 22-byte end-of-central-directory record written at source lines
162-171. -/
def endOfCentralDirBytes (entryCount centralDirSize centralDirStart : Nat) : List Nat :=
  le32 0x06054b50 ++ le16 0 ++ le16 0 ++ le16 entryCount ++ le16 entryCount ++
  le32 centralDirSize ++ le32 centralDirStart ++ le16 0

/-- The mutable state threaded through the `for (const file of files)`
loop of `#createZipFromFiles` (source lines 52-55). -/
structure ZipState where
  parts : List (List Nat)
  centralHeaders : List (List Nat)
  adler32Map : List (List Nat × Nat)
  offset : Nat
deriving DecidableEq, Repr

/-- One iteration of the entry loop of `#createZipFromFiles` (source
lines 57-154) for one file, threading the loop state.  The compression
transform `comp` may fail, in which case the error propagates (the
`try`/`catch` blocks at lines 63-79 only log and rethrow). -/
def processFile {ε : Type} (comp : List Nat → Except ε (List Nat)) (st : ZipState)
    (file : JSFile) : Except ε ZipState := do
  let filenameBytes := file.name
  let crc32 := calculateCRC32 file.data
  let compressedView ← comp file.data
  let compressedData := (reframe compressedView).1
  let adler32Map :=
    if 6 ≤ compressedView.length ∧ compressedView.headD 0 = 0x78 then
      (file.name, (reframe compressedView).2) :: st.adler32Map
    else
      st.adler32Map
  let compressedSize := compressedData.length
  let uncompressedSize := file.data.length
  let localHeader := localHeaderBytes crc32 compressedSize uncompressedSize filenameBytes
  let adler32 := (adler32Map.lookup file.name).getD 0
  let commentBytes := adlerComment adler32
  let centralHeader :=
    centralHeaderBytes crc32 compressedSize uncompressedSize filenameBytes commentBytes
      st.offset
  Except.ok
    { parts := st.parts ++ [localHeader, compressedData]
      centralHeaders := st.centralHeaders ++ [centralHeader]
      adler32Map := adler32Map
      offset := st.offset + (30 + filenameBytes.length) + compressedSize }

/-- The entry loop of `#createZipFromFiles`, iterated over the file list. -/
def zipLoop {ε : Type} (comp : List Nat → Except ε (List Nat)) (st : ZipState) :
    List JSFile → Except ε ZipState
  | [] => Except.ok st
  | f :: fs => do zipLoop comp (← processFile comp st f) fs

/-- Source `#createZipFromFiles` (lines 51-177): run the entry loop from
the empty state, then append the buffered central headers and the
end-of-central-directory record and concatenate everything into a Blob
with MIME type application/zip. -/
def createZipFromFiles {ε : Type} (comp : List Nat → Except ε (List Nat))
    (files : List JSFile) : Except ε Blob := do
  let st ← zipLoop comp { parts := [], centralHeaders := [], adler32Map := [], offset := 0 } files
  let centralDirStart := st.offset
  let centralDirSize := (st.centralHeaders.map List.length).sum
  let parts := st.parts ++ st.centralHeaders ++
    [endOfCentralDirBytes files.length centralDirSize centralDirStart]
  Except.ok { data := parts.flatten, type := "application/zip" }

/-- Source `#compressSingleFile` (lines 179-183): pipe the file bytes
through the compression transform and collect the chunks into an untyped
Blob (`new Blob(chunks)` has MIME type the empty string). -/
def compressSingleFile {ε : Type} (comp : List Nat → Except ε (List Nat)) (file : JSFile) :
    Except ε Blob := do
  Except.ok { data := ← comp file.data, type := "" }

/-- The argument of `compress`: either an array of files or a single file
(the `Array.isArray` test at source line 186). -/
inductive CompressInput where
  | files (fs : List JSFile)
  | file (f : JSFile)
deriving DecidableEq

/-- Source `compress` (lines 185-187). -/
def compress {ε : Type} (comp : List Nat → Except ε (List Nat)) :
    CompressInput → Except ε Blob
  | CompressInput.files fs => createZipFromFiles comp fs
  | CompressInput.file f => compressSingleFile comp f

/-- A compression transform that never fails, given by a pure function
from payload bytes to wrapped output bytes. -/
def pureComp (pc : List Nat → List Nat) : List Nat → Except Unit (List Nat) :=
  fun d => Except.ok (pc d)

/- Closed per-entry descriptions of the archive, used to state the
specification claims independently of the loop state. -/

/-- CRC-32 of an entry's uncompressed payload (source line 60). -/
def entryCrc (f : JSFile) : Nat := calculateCRC32 f.data

/-- Raw deflate bytes of an entry: the compressor output with the zlib
wrapper stripped when detected. -/
def entryRaw (pc : List Nat → List Nat) (f : JSFile) : List Nat := (reframe (pc f.data)).1

/-- Compressed size of an entry (source line 98). -/
def entryCSize (pc : List Nat → List Nat) (f : JSFile) : Nat := (entryRaw pc f).length

/-- Bytes the entry contributes before the central directory:
30 + filename length + compressed size (source lines 101 and 153). -/
def entrySize (pc : List Nat → List Nat) (f : JSFile) : Nat :=
  30 + f.name.length + entryCSize pc f

/-- Local header followed immediately by the raw deflate data of one
entry. -/
def localChunk (pc : List Nat → List Nat) (f : JSFile) : List Nat :=
  localHeaderBytes (entryCrc f) (entryCSize pc f) f.data.length f.name ++ entryRaw pc f

/-- The checksum looked up at source line 123 for filename `n`, scanning
previously processed files most recent first: the Adler-32 of the most
recent same-named file whose compressor output was zlib-framed, or 0 when
there is none. -/
def adlerLookback (pc : List Nat → List Nat) : List JSFile → List Nat → Nat
  | [], _ => 0
  | g :: gs, n =>
      if (6 ≤ (pc g.data).length ∧ (pc g.data).headD 0 = 0x78) ∧ g.name = n then
        (reframe (pc g.data)).2
      else
        adlerLookback pc gs n

/-- The checksum stored in the comment of the central header of entry `f`
when the files processed before it are `prevRev` (most recent first):
line 123 looks the name up after the current file may have inserted its
own extracted Adler-32. -/
def entryAdler (pc : List Nat → List Nat) (prevRev : List JSFile) (f : JSFile) : Nat :=
  adlerLookback pc (f :: prevRev) f.name

/-- The Adler-32 map contents after processing `prevRev` (most recent
first): one binding per zlib-framed compressor output. -/
def adlerMapOf (pc : List Nat → List Nat) : List JSFile → List (List Nat × Nat)
  | [] => []
  | g :: gs =>
      if 6 ≤ (pc g.data).length ∧ (pc g.data).headD 0 = 0x78 then
        (g.name, (reframe (pc g.data)).2) :: adlerMapOf pc gs
      else
        adlerMapOf pc gs

/-- Central directory header of one entry, given the files processed
before it and its local header offset. -/
def centralChunk (pc : List Nat → List Nat) (prevRev : List JSFile) (offset : Nat)
    (f : JSFile) : List Nat :=
  centralHeaderBytes (entryCrc f) (entryCSize pc f) f.data.length f.name
    (adlerComment (entryAdler pc prevRev f)) offset

/-- The buffered central directory headers of a file list, carrying the
already-processed files (most recent first) and the running offset. -/
def centralsSpec (pc : List Nat → List Nat) (prevRev : List JSFile) (offset : Nat) :
    List JSFile → List (List Nat)
  | [] => []
  | f :: fs =>
      centralChunk pc prevRev offset f ::
        centralsSpec pc (f :: prevRev) (offset + entrySize pc f) fs

/-- The central directory of a build started from scratch. -/
def centralDir (pc : List Nat → List Nat) (fs : List JSFile) : List (List Nat) :=
  centralsSpec pc [] 0 fs

/-- Sum of the central header byte lengths (source line 157). -/
def cdSize (pc : List Nat → List Nat) (fs : List JSFile) : Nat :=
  ((centralDir pc fs).map List.length).sum

/-- Byte offset of the local header of entry `i`: the sum over all
earlier entries of (30 + filename length + compressed size). -/
def offsetBefore (pc : List Nat → List Nat) (fs : List JSFile) (i : Nat) : Nat :=
  ((fs.take i).map (entrySize pc)).sum

/-- Byte offset of central directory header `i` within the archive. -/
def centralPos (pc : List Nat → List Nat) (fs : List JSFile) (i : Nat) : Nat :=
  offsetBefore pc fs fs.length + (((centralDir pc fs).take i).map List.length).sum

/-- Byte offset of the end-of-central-directory record within the
archive. -/
def endPos (pc : List Nat → List Nat) (fs : List JSFile) : Nat :=
  offsetBefore pc fs fs.length + cdSize pc fs

/-- The whole archive, described entry by entry: local chunks in input
order, then the central directory, then the end record. -/
def archiveBytes (pc : List Nat → List Nat) (fs : List JSFile) : List Nat :=
  (fs.map (localChunk pc)).flatten ++ (centralDir pc fs).flatten ++
    endOfCentralDirBytes fs.length (cdSize pc fs) (offsetBefore pc fs fs.length)

/-- Little-endian uint16 read at byte offset `k` of a buffer. -/
def leDec16 (bs : List Nat) (k : Nat) : Nat :=
  match bs.drop k with
  | b0 :: b1 :: _ => b0 + 256 * b1
  | _ => 0

/-- Little-endian uint32 read at byte offset `k` of a buffer. -/
def leDec32 (bs : List Nat) (k : Nat) : Nat :=
  match bs.drop k with
  | b0 :: b1 :: b2 :: b3 :: _ => b0 + 256 * b1 + 65536 * b2 + 16777216 * b3
  | _ => 0

/-- Bytes of a build result, empty on failure. -/
def blobData {ε : Type} : Except ε Blob → List Nat
  | Except.ok b => b.data
  | Except.error _ => []

/-- The file at position `i` of the input list (out of range yields the
empty-named empty file, unused under an in-range hypothesis). -/
def nthFile (fs : List JSFile) (i : Nat) : JSFile := fs.getD i default

/- Concrete instances used to evaluate the theorems below on closed
inputs. -/

/-- A pure compressor that emits a zlib-framed buffer with Adler-32
trailer 5 for the payload `[1]` and a short unframed buffer for anything
else. -/
def pcDup : List Nat → List Nat := fun d => if d = [1] then [0x78, 0x9C, 0, 0, 0, 5] else [9]

/-- Two files with the same one-byte name `[97]`. -/
def fsDup : List JSFile := [{ name := [97], data := [1] }, { name := [97], data := [2] }]

/-- A pure compressor returning the real deflate output for empty input:
the zlib stream `78 9c 03 00` plus the Adler-32 of no bytes, `00 00 00 01`. -/
def pcEmpty : List Nat → List Nat := fun _ => [0x78, 0x9C, 0x03, 0x00, 0x00, 0x00, 0x00, 0x01]

/-- A pure compressor emitting a fixed framed buffer with two payload
bytes. -/
def pcTwo : List Nat → List Nat := fun _ => [0x78, 0x9C, 11, 22, 33, 44, 55, 66]

/-- A single file named `[97]` with a two-byte payload. -/
def fsOne : List JSFile := [{ name := [97], data := [104, 105] }]

/-- A fallible compressor that rejects exactly the empty payload. -/
def compFail : List Nat → Except String (List Nat) :=
  fun d => if d = [] then Except.error "stream aborted" else Except.ok [7, 8]

end FileCompressor

namespace FileCompressor

/- Arithmetic groundwork for the CRC-32 equivalence: `crcStep` is linear
over xor, and processing one byte through the lookup table equals eight
bit-steps of the reference algorithm. -/

lemma xor_div_two (a b : Nat) : (a ^^^ b) / 2 = a / 2 ^^^ b / 2 := by
  rw [← Nat.shiftRight_one, ← Nat.shiftRight_one, ← Nat.shiftRight_one]
  apply Nat.eq_of_testBit_eq
  intro i
  simp [Nat.testBit_shiftRight, Nat.testBit_xor]

lemma xor_mod_two (a b : Nat) : (a ^^^ b) % 2 = a % 2 ^^^ b % 2 := by
  rw [← Nat.and_one_is_mod, ← Nat.and_one_is_mod, ← Nat.and_one_is_mod,
    Nat.and_xor_distrib_right]

lemma xor_pair_cancel (x y p : Nat) : (x ^^^ p) ^^^ (y ^^^ p) = x ^^^ y := by
  rw [Nat.xor_comm y p, ← Nat.xor_assoc, Nat.xor_assoc x p p, Nat.xor_self, Nat.xor_zero]

lemma crcStep_xor (a b : Nat) : crcStep (a ^^^ b) = crcStep a ^^^ crcStep b := by
  unfold crcStep
  rw [xor_mod_two]
  rcases Nat.mod_two_eq_zero_or_one a with ha | ha <;>
    rcases Nat.mod_two_eq_zero_or_one b with hb | hb
  · rw [ha, hb, if_neg (by decide), if_neg (by decide), if_neg (by decide), xor_div_two]
  · rw [ha, hb, if_pos (by decide), if_neg (by decide), if_pos (by decide), xor_div_two,
      Nat.xor_assoc]
  · rw [ha, hb, if_pos (by decide), if_pos (by decide), if_neg (by decide), xor_div_two,
      Nat.xor_assoc, Nat.xor_comm (b / 2) 0xEDB88320, ← Nat.xor_assoc]
  · rw [ha, hb, if_neg (by decide), if_pos (by decide), if_pos (by decide), xor_div_two]
    exact (xor_pair_cancel _ _ _).symm

lemma crcStep8_xor (a b : Nat) : crcStep8 (a ^^^ b) = crcStep8 a ^^^ crcStep8 b := by
  simp [crcStep8, crcStep_xor]

lemma crcStep_two_mul (m : Nat) : crcStep (2 * m) = m := by
  have h : 2 * m % 2 = 0 := Nat.mul_mod_right 2 m
  unfold crcStep
  rw [h, if_neg (by omega)]
  omega

lemma crcStep8_mul256 (m : Nat) : crcStep8 (256 * m) = m := by
  unfold crcStep8
  rw [show 256 * m = 2 * (2 * (2 * (2 * (2 * (2 * (2 * (2 * m))))))) by ring]
  rw [crcStep_two_mul, crcStep_two_mul, crcStep_two_mul, crcStep_two_mul,
    crcStep_two_mul, crcStep_two_mul, crcStep_two_mul, crcStep_two_mul]

lemma split_byte (y : Nat) : ((y >>> 8) <<< 8) ^^^ (y &&& 255) = y := by
  apply Nat.eq_of_testBit_eq
  intro i
  rw [Nat.testBit_xor, Nat.testBit_shiftLeft, Nat.testBit_and,
    show (255 : Nat) = 2 ^ 8 - 1 by norm_num, Nat.testBit_two_pow_sub_one,
    Nat.testBit_shiftRight]
  by_cases hi : i < 8
  · have h8 : ¬ (i ≥ 8) := by omega
    simp [hi, h8]
  · have h8 : i ≥ 8 := by omega
    have he : 8 + (i - 8) = i := by omega
    simp [hi, h8, he]

lemma crcStep8_shiftLeft (y : Nat) : crcStep8 ((y >>> 8) <<< 8) = y >>> 8 := by
  rw [Nat.shiftLeft_eq, show (2 : Nat) ^ 8 = 256 by norm_num, Nat.mul_comm, crcStep8_mul256]

lemma crcStep8_split (y : Nat) : crcStep8 y = (y >>> 8) ^^^ crcStep8 (y &&& 255) := by
  conv_lhs => rw [← split_byte y]
  rw [crcStep8_xor, crcStep8_shiftLeft]

lemma crcTable_getD (k : Nat) (hk : k < 256) : crcTable.getD k 0 = crcStep8 k := by
  unfold crcTable
  rw [List.getD_eq_getElem?_getD, List.getElem?_map, List.getElem?_range hk]
  rfl

lemma xor_shiftRight_of_lt (crc b : Nat) (hb : b < 256) : (crc ^^^ b) >>> 8 = crc >>> 8 := by
  apply Nat.eq_of_testBit_eq
  intro i
  rw [Nat.testBit_shiftRight, Nat.testBit_shiftRight, Nat.testBit_xor]
  have hbit : b.testBit (8 + i) = false := by
    apply Nat.testBit_eq_false_of_lt
    calc b < 256 := hb
    _ = 2 ^ 8 := by norm_num
    _ ≤ 2 ^ (8 + i) := Nat.pow_le_pow_right (by norm_num) (by omega)
  simp [hbit]

lemma crcUpdate_eq (crc b : Nat) (hb : b < 256) :
    (crc >>> 8) ^^^ crcTable.getD ((crc ^^^ b) &&& 255) 0 = crcStep8 (crc ^^^ b) := by
  have hk : (crc ^^^ b) &&& 255 < 256 := lt_of_le_of_lt Nat.and_le_right (by norm_num)
  rw [crcTable_getD _ hk, crcStep8_split (crc ^^^ b), xor_shiftRight_of_lt crc b hb]

lemma crcFold_eq : ∀ (data : List Nat), (∀ b ∈ data, b < 256) → ∀ crc : Nat,
    data.foldl (fun crc b => (crc >>> 8) ^^^ crcTable.getD ((crc ^^^ b) &&& 255) 0) crc =
      data.foldl (fun crc b => crcStep8 (crc ^^^ b)) crc := by
  intro data
  induction data with
  | nil => intro _ crc; rfl
  | cons b bs ih =>
      intro h crc
      rw [List.foldl_cons, List.foldl_cons, crcUpdate_eq crc b (h b (by simp))]
      exact ih (fun x hx => h x (by simp [hx])) _

lemma crcStep_lt {c : Nat} (h : c < 2 ^ 32) : crcStep c < 2 ^ 32 := by
  unfold crcStep
  split
  · exact Nat.xor_lt_two_pow (by omega) (by norm_num)
  · omega

lemma crcStep8_lt {c : Nat} (h : c < 2 ^ 32) : crcStep8 c < 2 ^ 32 := by
  unfold crcStep8
  exact crcStep_lt (crcStep_lt (crcStep_lt (crcStep_lt
    (crcStep_lt (crcStep_lt (crcStep_lt (crcStep_lt h)))))))

lemma crcFold_lt : ∀ (data : List Nat) (crc : Nat), crc < 2 ^ 32 →
    data.foldl (fun crc b => (crc >>> 8) ^^^ crcTable.getD ((crc ^^^ b) &&& 255) 0) crc
      < 2 ^ 32 := by
  intro data
  induction data with
  | nil => intro crc h; simpa using h
  | cons b bs ih =>
      intro crc h
      rw [List.foldl_cons]
      apply ih
      have hk : (crc ^^^ b) &&& 255 < 256 := lt_of_le_of_lt Nat.and_le_right (by norm_num)
      rw [crcTable_getD _ hk]
      apply Nat.xor_lt_two_pow
      · have hsr : crc >>> 8 = crc / 2 ^ 8 := Nat.shiftRight_eq_div_pow crc 8
        have : (2 : Nat) ^ 8 = 256 := by norm_num
        omega
      · exact crcStep8_lt (by omega)

end FileCompressor

namespace FileCompressor

/- Byte lengths of the emitted records, and bounds on the stored
checksums. -/

lemma le16_length (v : Nat) : (le16 v).length = 2 := rfl

lemma le32_length (v : Nat) : (le32 v).length = 4 := rfl

lemma localHeaderBytes_length (c s u : Nat) (nb : List Nat) :
    (localHeaderBytes c s u nb).length = 30 + nb.length := by
  simp [localHeaderBytes, le16, le32]
  omega

lemma centralHeaderBytes_length (c s u : Nat) (nb cb : List Nat) (off : Nat) :
    (centralHeaderBytes c s u nb cb off).length = 46 + nb.length + cb.length := by
  simp [centralHeaderBytes, le16, le32]
  omega

lemma endOfCentralDirBytes_length (c s st : Nat) : (endOfCentralDirBytes c s st).length = 22 := by
  simp [endOfCentralDirBytes, le16, le32]

lemma natToHexAux_length_le : ∀ (k n fuel : Nat), n < 16 ^ (k + 1) →
    (natToHexAux fuel n).length ≤ k + 1 := by
  intro k
  induction k with
  | zero =>
      intro n fuel hn
      cases fuel with
      | zero => rw [natToHexAux]; simp
      | succ fuel =>
          rw [natToHexAux, if_pos (by simpa using hn)]
          simp
  | succ k ih =>
      intro n fuel hn
      cases fuel with
      | zero => rw [natToHexAux]; simp
      | succ fuel =>
          by_cases h16 : n < 16
          · rw [natToHexAux, if_pos h16]
            simp
          · rw [natToHexAux, if_neg h16]
            have hdiv : n / 16 < 16 ^ (k + 1) := by
              have h2 : n < 16 ^ (k + 1) * 16 := by
                rw [← pow_succ]
                exact hn
              exact (Nat.div_lt_iff_lt_mul (by norm_num)).mpr h2
            have hlen := ih _ fuel hdiv
            simp only [List.length_append, List.length_singleton]
            omega

lemma natToHex_length_le (k n : Nat) (hn : n < 16 ^ (k + 1)) : (natToHex n).length ≤ k + 1 :=
  natToHexAux_length_le k n n hn

lemma adlerComment_length {a : Nat} (ha : a < 4294967296) : (adlerComment a).length = 8 := by
  unfold adlerComment
  rw [List.length_map, List.length_append, List.length_replicate]
  have h8 : a < 16 ^ 8 := by
    calc a < 4294967296 := ha
    _ = 16 ^ 8 := by norm_num
  have hle := natToHex_length_le 7 a h8
  omega

lemma beU32_lt (bs : List Nat) : beU32 bs < 4294967296 := by
  unfold beU32
  split
  · omega
  · omega

lemma reframe_snd_lt (w : List Nat) : (reframe w).2 < 4294967296 := by
  unfold reframe
  split
  · exact beU32_lt _
  · show (0 : Nat) < 4294967296
    norm_num

lemma adlerLookback_lt (pc : List Nat → List Nat) : ∀ (l : List JSFile) (n : List Nat),
    adlerLookback pc l n < 4294967296 := by
  intro l
  induction l with
  | nil =>
      intro n
      show (0 : Nat) < 4294967296
      norm_num
  | cons g gs ih =>
      intro n
      rw [adlerLookback]
      split
      · exact reframe_snd_lt _
      · exact ih n

lemma entryAdler_lt (pc : List Nat → List Nat) (prevRev : List JSFile) (f : JSFile) :
    entryAdler pc prevRev f < 4294967296 := adlerLookback_lt pc _ _

lemma localChunk_length (pc : List Nat → List Nat) (f : JSFile) :
    (localChunk pc f).length = entrySize pc f := by
  unfold localChunk entrySize entryCSize
  rw [List.length_append, localHeaderBytes_length]

lemma centralChunk_length (pc : List Nat → List Nat) (prevRev : List JSFile) (off : Nat)
    (f : JSFile) : (centralChunk pc prevRev off f).length = 54 + f.name.length := by
  simp [centralChunk, centralHeaderBytes_length, adlerComment_length (entryAdler_lt pc prevRev f)]
  omega

lemma centralsSpec_length (pc : List Nat → List Nat) : ∀ (fs : List JSFile)
    (prevRev : List JSFile) (off : Nat), (centralsSpec pc prevRev off fs).length = fs.length := by
  intro fs
  induction fs with
  | nil => intro prevRev off; rfl
  | cons f fs ih =>
      intro prevRev off
      simp [centralsSpec, ih]

/- The association list built by `Map.set` at line 90 realises exactly the
most-recent same-named framed lookup of `adlerLookback`. -/

lemma adlerMapOf_cons (pc : List Nat → List Nat) (f : JSFile) (prevRev : List JSFile) :
    adlerMapOf pc (f :: prevRev) =
      if 6 ≤ (pc f.data).length ∧ (pc f.data).headD 0 = 0x78 then
        (f.name, (reframe (pc f.data)).2) :: adlerMapOf pc prevRev
      else adlerMapOf pc prevRev := rfl

lemma adlerMapOf_lookup (pc : List Nat → List Nat) : ∀ (l : List JSFile) (n : List Nat),
    ((adlerMapOf pc l).lookup n).getD 0 = adlerLookback pc l n := by
  intro l
  induction l with
  | nil => intro n; rfl
  | cons g gs ih =>
      intro n
      rw [adlerMapOf_cons, adlerLookback]
      by_cases hC : 6 ≤ (pc g.data).length ∧ (pc g.data).headD 0 = 0x78
      · rw [if_pos hC]
        by_cases hn : g.name = n
        · subst hn
          rw [if_pos ⟨hC, rfl⟩]
          simp [List.lookup]
        · rw [if_neg (fun h => hn h.2)]
          have hbeq : (n == g.name) = false := beq_eq_false_iff_ne.mpr (Ne.symm hn)
          simp [List.lookup, hbeq]
          exact ih n
      · rw [if_neg hC, if_neg (fun h => hC h.1)]
        exact ih n

end FileCompressor

namespace FileCompressor

/- Refinement of the stateful entry loop by the closed per-entry
description: running one iteration appends one local chunk pair, one
central header, and advances the offset by the entry size. -/

lemma processFile_pure (pc : List Nat → List Nat) (st : ZipState) (f : JSFile)
    (prevRev : List JSFile) (hmap : st.adler32Map = adlerMapOf pc prevRev) :
    processFile (pureComp pc) st f = Except.ok
      { parts := st.parts ++
          [localHeaderBytes (entryCrc f) (entryCSize pc f) f.data.length f.name, entryRaw pc f]
        centralHeaders := st.centralHeaders ++ [centralChunk pc prevRev st.offset f]
        adler32Map := adlerMapOf pc (f :: prevRev)
        offset := st.offset + entrySize pc f } := by
  unfold processFile pureComp
  simp only [Bind.bind, Except.bind]
  rw [hmap, ← adlerMapOf_cons]
  rw [adlerMapOf_lookup pc (f :: prevRev) f.name]
  simp [centralChunk, entryCrc, entryRaw, entryCSize, entrySize, entryAdler, Nat.add_assoc]

lemma zipLoop_pure (pc : List Nat → List Nat) : ∀ (fs : List JSFile) (prevRev : List JSFile)
    (st : ZipState), st.adler32Map = adlerMapOf pc prevRev →
    zipLoop (pureComp pc) st fs = Except.ok
      { parts := st.parts ++ (fs.map (fun f =>
          [localHeaderBytes (entryCrc f) (entryCSize pc f) f.data.length f.name,
            entryRaw pc f])).flatten
        centralHeaders := st.centralHeaders ++ centralsSpec pc prevRev st.offset fs
        adler32Map := adlerMapOf pc (fs.reverse ++ prevRev)
        offset := st.offset + (fs.map (entrySize pc)).sum } := by
  intro fs
  induction fs with
  | nil =>
      intro prevRev st hmap
      cases st with
      | mk parts centralHeaders adler32Map offset =>
          simp only [ZipState.mk.injEq] at hmap ⊢
          simp [zipLoop, centralsSpec, hmap]
  | cons f fs ih =>
      intro prevRev st hmap
      rw [zipLoop, processFile_pure pc st f prevRev hmap]
      simp only [Bind.bind, Except.bind]
      rw [ih (f :: prevRev) _ rfl]
      simp [centralsSpec, List.append_assoc, List.reverse_cons, Nat.add_assoc]

lemma parts_flatten_eq (pc : List Nat → List Nat) : ∀ fs : List JSFile,
    ((fs.map (fun f =>
      [localHeaderBytes (entryCrc f) (entryCSize pc f) f.data.length f.name,
        entryRaw pc f])).flatten).flatten = (fs.map (localChunk pc)).flatten := by
  intro fs
  induction fs with
  | nil => rfl
  | cons f fs ih =>
      simp [List.flatten_append, ih, localChunk, List.append_assoc]

lemma offsetBefore_length (pc : List Nat → List Nat) (fs : List JSFile) :
    offsetBefore pc fs fs.length = (fs.map (entrySize pc)).sum := by
  unfold offsetBefore
  rw [List.take_length]

lemma createZip_eq (pc : List Nat → List Nat) (fs : List JSFile) :
    createZipFromFiles (pureComp pc) fs =
      Except.ok { data := archiveBytes pc fs, type := "application/zip" } := by
  unfold createZipFromFiles
  rw [zipLoop_pure pc fs [] _ rfl]
  simp only [Bind.bind, Except.bind]
  simp [archiveBytes, centralDir, cdSize, offsetBefore_length, List.flatten_append,
    parts_flatten_eq, List.append_assoc]

end FileCompressor

namespace FileCompressor

/- Locating each record inside the final archive bytes: the local chunk of
entry i starts at `offsetBefore i`, central header i at `centralPos i`,
and the end record at `endPos`. -/

lemma sum_take_le (l : List Nat) (i : Nat) : (l.take i).sum ≤ l.sum := by
  conv_rhs => rw [← List.take_append_drop i l]
  rw [List.sum_append]
  omega

lemma mapLength_localChunk (pc : List Nat → List Nat) (fs : List JSFile) :
    (fs.map (localChunk pc)).map List.length = fs.map (entrySize pc) := by
  rw [List.map_map]
  simp [Function.comp, localChunk_length]

lemma offsetBefore_take_sum (pc : List Nat → List Nat) (fs : List JSFile) (i : Nat) :
    (List.take i (List.map List.length (fs.map (localChunk pc)))).sum = offsetBefore pc fs i := by
  rw [mapLength_localChunk]
  unfold offsetBefore
  rw [List.map_take]

lemma localFlatten_length (pc : List Nat → List Nat) (fs : List JSFile) :
    ((fs.map (localChunk pc)).flatten).length = offsetBefore pc fs fs.length := by
  rw [List.length_flatten, mapLength_localChunk, ← offsetBefore_length]

lemma offsetBefore_le_total (pc : List Nat → List Nat) (fs : List JSFile) (i : Nat) :
    offsetBefore pc fs i ≤ offsetBefore pc fs fs.length := by
  rw [offsetBefore_length]
  unfold offsetBefore
  rw [List.map_take]
  exact sum_take_le _ i

lemma getD_cons_drop (fs : List JSFile) (i : Nat) (hi : i < fs.length) :
    fs.drop i = fs.getD i default :: fs.drop (i + 1) := by
  rw [List.getD_eq_getElem fs default hi]
  exact List.drop_eq_getElem_cons hi

lemma archive_local_suffix (pc : List Nat → List Nat) (fs : List JSFile) (i : Nat)
    (hi : i < fs.length) :
    ∃ tail, (archiveBytes pc fs).drop (offsetBefore pc fs i) =
      localChunk pc (fs.getD i default) ++ tail := by
  exact ⟨_, by
    unfold archiveBytes
    rw [List.append_assoc]
    rw [List.drop_append_of_le_length
      (by rw [localFlatten_length]; exact offsetBefore_le_total pc fs i)]
    rw [show offsetBefore pc fs i =
        (List.take i (List.map List.length (fs.map (localChunk pc)))).sum from
      (offsetBefore_take_sum pc fs i).symm]
    rw [List.drop_sum_flatten, ← List.map_drop, getD_cons_drop fs i hi, List.map_cons,
      List.flatten_cons, List.append_assoc]⟩

lemma centralsSpec_drop (pc : List Nat → List Nat) : ∀ (fs : List JSFile) (i : Nat)
    (prevRev : List JSFile) (off : Nat), i ≤ fs.length →
    (centralsSpec pc prevRev off fs).drop i =
      centralsSpec pc ((fs.take i).reverse ++ prevRev) (off + offsetBefore pc fs i)
        (fs.drop i) := by
  intro fs
  induction fs with
  | nil =>
      intro i prevRev off hi
      have h0 : i = 0 := Nat.le_zero.mp hi
      subst h0
      simp [centralsSpec, offsetBefore]
  | cons f fs ih =>
      intro i prevRev off hi
      cases i with
      | zero => simp [offsetBefore]
      | succ i =>
          rw [centralsSpec, List.drop_succ_cons,
            ih i (f :: prevRev) (off + entrySize pc f) (by simpa using hi)]
          simp [List.take_succ_cons, List.reverse_cons, List.append_assoc, offsetBefore,
            Nat.add_assoc]

lemma archive_central_suffix (pc : List Nat → List Nat) (fs : List JSFile) (i : Nat)
    (hi : i < fs.length) :
    ∃ tail, (archiveBytes pc fs).drop (centralPos pc fs i) =
      centralChunk pc (fs.take i).reverse (offsetBefore pc fs i) (fs.getD i default)
        ++ tail := by
  exact ⟨_, by
    unfold archiveBytes centralPos
    rw [List.append_assoc, ← List.drop_drop, ← localFlatten_length pc fs, List.drop_left,
      List.map_take]
    rw [List.drop_append_of_le_length (by rw [List.length_flatten]; exact sum_take_le _ _)]
    rw [List.drop_sum_flatten]
    rw [show centralDir pc fs = centralsSpec pc [] 0 fs from rfl]
    rw [centralsSpec_drop pc fs i [] 0 (le_of_lt hi), getD_cons_drop fs i hi, centralsSpec]
    simp only [List.append_nil, Nat.zero_add]
    rw [List.flatten_cons, List.append_assoc]⟩

lemma archive_end_suffix (pc : List Nat → List Nat) (fs : List JSFile) :
    (archiveBytes pc fs).drop (endPos pc fs) =
      endOfCentralDirBytes fs.length (cdSize pc fs) (offsetBefore pc fs fs.length) := by
  unfold archiveBytes endPos
  rw [List.append_assoc, ← List.drop_drop, ← localFlatten_length pc fs, List.drop_left]
  have hcd : (centralDir pc fs).flatten.length = cdSize pc fs := by
    rw [List.length_flatten]
    rfl
  rw [← hcd, List.drop_left]

/- Little-endian field reads from a concatenation. -/

lemma leDec32_cons_succ (b : Nat) (bs : List Nat) (k : Nat) :
    leDec32 (b :: bs) (k + 1) = leDec32 bs k := by
  unfold leDec32
  rw [List.drop_succ_cons]

lemma leDec32_cons (b0 b1 b2 b3 : Nat) (rest : List Nat) :
    leDec32 (b0 :: b1 :: b2 :: b3 :: rest) 0 = b0 + 256 * b1 + 65536 * b2 + 16777216 * b3 := rfl

lemma leDec16_cons_succ (b : Nat) (bs : List Nat) (k : Nat) :
    leDec16 (b :: bs) (k + 1) = leDec16 bs k := by
  unfold leDec16
  rw [List.drop_succ_cons]

lemma leDec16_cons (b0 b1 : Nat) (rest : List Nat) :
    leDec16 (b0 :: b1 :: rest) 0 = b0 + 256 * b1 := rfl

lemma leDec32_shift (bs : List Nat) (p k : Nat) : leDec32 bs (p + k) = leDec32 (bs.drop p) k := by
  unfold leDec32
  rw [List.drop_drop]

lemma leDec16_shift (bs : List Nat) (p k : Nat) : leDec16 bs (p + k) = leDec16 (bs.drop p) k := by
  unfold leDec16
  rw [List.drop_drop]

lemma centralHeaderBytes_offset_field (c s u : Nat) (nb cb : List Nat) (off : Nat)
    (tail : List Nat) :
    leDec32 (centralHeaderBytes c s u nb cb off ++ tail) 42 = off % 4294967296 := by
  simp only [centralHeaderBytes, le16, le32, List.cons_append, List.nil_append]
  simp only [leDec32_cons_succ, leDec32_cons]
  omega

lemma centralHeaderBytes_commentLen_field (c s u : Nat) (nb cb : List Nat) (off : Nat)
    (tail : List Nat) :
    leDec16 (centralHeaderBytes c s u nb cb off ++ tail) 32 = cb.length % 65536 := by
  simp only [centralHeaderBytes, le16, le32, List.cons_append, List.nil_append]
  simp only [leDec16_cons_succ, leDec16_cons]
  omega

lemma centralHeaderBytes_comment_suffix (c s u : Nat) (nb cb : List Nat) (off : Nat)
    (tail : List Nat) :
    (centralHeaderBytes c s u nb cb off ++ tail).drop (46 + nb.length) = cb ++ tail := by
  have hX : centralHeaderBytes c s u nb cb off ++ tail =
      ((le32 0x02014b50 ++ le16 20 ++ le16 20 ++ le16 0 ++ le16 8 ++ le16 0 ++ le16 0 ++
        le32 c ++ le32 s ++ le32 u ++ le16 nb.length ++ le16 0 ++ le16 cb.length ++
        le16 0 ++ le16 0 ++ le32 0 ++ le32 off) ++ nb) ++ (cb ++ tail) := by
    simp [centralHeaderBytes, List.append_assoc]
  rw [hX]
  rw [show 46 + nb.length =
      (((le32 0x02014b50 ++ le16 20 ++ le16 20 ++ le16 0 ++ le16 8 ++ le16 0 ++ le16 0 ++
        le32 c ++ le32 s ++ le32 u ++ le16 nb.length ++ le16 0 ++ le16 cb.length ++
        le16 0 ++ le16 0 ++ le32 0 ++ le32 off) ++ nb)).length from by
    simp [le16, le32]
    omega]
  rw [List.drop_left]

lemma eocd_fields (c s st : Nat) :
    leDec16 (endOfCentralDirBytes c s st) 8 = c % 65536 ∧
    leDec16 (endOfCentralDirBytes c s st) 10 = c % 65536 ∧
    leDec32 (endOfCentralDirBytes c s st) 12 = s % 4294967296 ∧
    leDec32 (endOfCentralDirBytes c s st) 16 = st % 4294967296 := by
  refine ⟨?_, ?_, ?_, ?_⟩ <;>
    · simp only [endOfCentralDirBytes, le16, le32, List.cons_append, List.nil_append]
      simp only [leDec32_cons_succ, leDec32_cons, leDec16_cons_succ, leDec16_cons]
      omega

end FileCompressor

namespace FileCompressor

/-- C4: `#calculateCRC32` equals the standard reflected CRC-32 (polynomial
0xEDB88320, initial register 0xFFFFFFFF, final xor with 0xFFFFFFFF,
truncated to 32 bits) on every byte sequence, and in particular maps the
empty sequence to 0 and the ASCII bytes of "123456789" to 0xCBF43926. -/
theorem C4_crc32_reference (data : List Nat) (hbytes : ∀ b ∈ data, b < 256) :
    calculateCRC32 data = crc32_spec data ∧
    calculateCRC32 [] = 0 ∧
    calculateCRC32 [49, 50, 51, 52, 53, 54, 55, 56, 57] = 0xCBF43926 := by
  refine ⟨?_, by decide, by decide⟩
  unfold calculateCRC32 crc32_spec
  rw [crcFold_eq data hbytes]
  have hlt : List.foldl (fun crc b => crcStep8 (crc ^^^ b)) 0xFFFFFFFF data ^^^ 0xFFFFFFFF
      < 4294967296 := by
    have h1 := crcFold_lt data 0xFFFFFFFF (by norm_num)
    rw [crcFold_eq data hbytes] at h1
    have h2 := Nat.xor_lt_two_pow h1 (show (0xFFFFFFFF : Nat) < 2 ^ 32 by norm_num)
    calc List.foldl (fun crc b => crcStep8 (crc ^^^ b)) 0xFFFFFFFF data ^^^ 0xFFFFFFFF
        < 2 ^ 32 := h2
    _ = 4294967296 := by norm_num
  exact (Nat.mod_eq_of_lt hlt).symm

/-- Witness for C4 at the byte sequence of "123456789". -/
theorem C4_crc32_reference_witness :
    calculateCRC32 [49, 50, 51, 52, 53, 54, 55, 56, 57] =
        crc32_spec [49, 50, 51, 52, 53, 54, 55, 56, 57] ∧
      calculateCRC32 [] = 0 ∧
      calculateCRC32 [49, 50, 51, 52, 53, 54, 55, 56, 57] = 0xCBF43926 :=
  C4_crc32_reference [49, 50, 51, 52, 53, 54, 55, 56, 57] (by decide)

/-- C1: for every ordered list of named byte payloads and every pure
compression transform, `compress` returns exactly the concatenation, in
input order, of each entry's local file header immediately followed by
that entry's raw deflate data, then the buffered central directory
headers in the same entry order, then the single end-of-central-directory
record, tagged with MIME type application/zip. -/
theorem C1_compress_archive_layout (pc : List Nat → List Nat) (fs : List JSFile) :
    compress (pureComp pc) (CompressInput.files fs) = Except.ok
      { data := (fs.map (localChunk pc)).flatten ++ ((centralDir pc fs).flatten ++
          endOfCentralDirBytes fs.length (cdSize pc fs) (offsetBefore pc fs fs.length))
        type := "application/zip" } := by
  show createZipFromFiles (pureComp pc) fs = _
  rw [createZip_eq]
  rw [show archiveBytes pc fs = (fs.map (localChunk pc)).flatten ++
    ((centralDir pc fs).flatten ++
      endOfCentralDirBytes fs.length (cdSize pc fs) (offsetBefore pc fs fs.length)) from by
    rw [archiveBytes, List.append_assoc]]

/-- C7: `compress` on an array input returns the ZIP archive with MIME
type application/zip, while on a single file it returns the compressor's
zlib-wrapped output bytes unchanged with no MIME type, bypassing all
header construction. -/
theorem C7_compress_dispatch (pc : List Nat → List Nat) (f : JSFile) (fs : List JSFile) :
    compress (pureComp pc) (CompressInput.file f) =
        Except.ok { data := pc f.data, type := "" } ∧
      compress (pureComp pc) (CompressInput.files fs) =
        Except.ok { data := archiveBytes pc fs, type := "application/zip" } :=
  ⟨rfl, createZip_eq pc fs⟩

/-- C10: compressing an empty file list yields exactly the 22-byte
end-of-central-directory record (little-endian signature 0x06054b50, all
counts, sizes, offsets and the comment length zero) tagged
application/zip, for any compression transform. -/
theorem C10_empty_archive {ε : Type} (comp : List Nat → Except ε (List Nat)) :
    compress comp (CompressInput.files []) = Except.ok
      { data := [0x50, 0x4B, 0x05, 0x06, 0, 0, 0, 0, 0, 0, 0, 0, 0, 0, 0, 0, 0, 0, 0, 0, 0, 0]
        type := "application/zip" } ∧
    ([0x50, 0x4B, 0x05, 0x06, 0, 0, 0, 0, 0, 0, 0, 0,
        0, 0, 0, 0, 0, 0, 0, 0, 0, 0] : List Nat).length = 22 := by
  exact ⟨rfl, rfl⟩

/-- C3: the reframer splits any compressor output of length at least 6
whose first byte is 0x78 into a 2-byte header, the raw deflate slice from
offset 2 to length minus 4, and a 4-byte trailer read as the big-endian
Adler-32; any other output passes through whole with checksum 0. -/
theorem C3_reframe (w : List Nat) :
    (6 ≤ w.length ∧ w.headD 0 = 0x78 →
      w.take 2 ++ (reframe w).1 ++ w.drop (w.length - 4) = w ∧
      (reframe w).1.length = w.length - 6 ∧
      (w.drop (w.length - 4)).length = 4 ∧
      (reframe w).2 = beU32 (w.drop (w.length - 4))) ∧
    (¬(6 ≤ w.length ∧ w.headD 0 = 0x78) → reframe w = (w, 0)) := by
  constructor
  · intro h
    have h1 : (reframe w).1 = (w.drop 2).take (w.length - 6) := by
      rw [reframe, if_pos h]
    have h2 : (reframe w).2 = beU32 (w.drop (w.length - 4)) := by
      rw [reframe, if_pos h]
    refine ⟨?_, ?_, ?_, h2⟩
    · rw [h1, ← List.take_add, show 2 + (w.length - 6) = w.length - 4 from by omega,
        List.take_append_drop]
    · rw [h1, List.length_take, List.length_drop]
      omega
    · rw [List.length_drop]
      omega
  · intro h
    rw [reframe, if_neg h]

/-- Witness for C3 on a framed 7-byte output and an unframed output. -/
theorem C3_reframe_witness :
    ([0x78, 1, 2, 3, 4, 5, 6].take 2 ++ (reframe [0x78, 1, 2, 3, 4, 5, 6]).1 ++
        [0x78, 1, 2, 3, 4, 5, 6].drop 3 = [0x78, 1, 2, 3, 4, 5, 6] ∧
      (reframe [0x78, 1, 2, 3, 4, 5, 6]).1.length = 1 ∧
      (([0x78, 1, 2, 3, 4, 5, 6] : List Nat).drop 3).length = 4 ∧
      (reframe [0x78, 1, 2, 3, 4, 5, 6]).2 = beU32 ([0x78, 1, 2, 3, 4, 5, 6].drop 3)) ∧
    reframe [1, 2] = ([1, 2], 0) := by
  constructor
  · have h := (C3_reframe [0x78, 1, 2, 3, 4, 5, 6]).1 (by decide)
    simpa using h
  · exact (C3_reframe [1, 2]).2 (by decide)

end FileCompressor

namespace FileCompressor

lemma zipLoop_error {ε : Type} (comp : List Nat → Except ε (List Nat)) (f : JSFile) (e : ε)
    (hf : comp f.data = Except.error e) :
    ∀ (pre : List JSFile), (∀ g ∈ pre, ∃ w, comp g.data = Except.ok w) →
    ∀ (post : List JSFile) (st : ZipState),
    zipLoop comp st (pre ++ f :: post) = Except.error e := by
  intro pre
  induction pre with
  | nil =>
      intro _ post st
      rw [List.nil_append, zipLoop]
      have hp : processFile comp st f = Except.error e := by
        unfold processFile
        simp only [hf, Bind.bind, Except.bind]
      rw [hp]
      rfl
  | cons g pre ih =>
      intro hpre post st
      obtain ⟨w, hw⟩ := hpre g (by simp)
      rw [List.cons_append, zipLoop]
      have hp : ∃ st1, processFile comp st g = Except.ok st1 := by
        unfold processFile
        simp only [hw, Bind.bind, Except.bind]
        exact ⟨_, rfl⟩
      obtain ⟨st1, hst1⟩ := hp
      rw [hst1]
      show zipLoop comp st1 (pre ++ f :: post) = Except.error e
      exact ih (fun x hx => hpre x (by simp [hx])) post st1

/-- C8: if the compression transform fails on any entry while all earlier
entries compressed successfully, the whole build returns that error: the
error is propagated to the caller and no archive Blob is produced. -/
theorem C8_compression_failure_aborts {ε : Type} (comp : List Nat → Except ε (List Nat))
    (pre post : List JSFile) (f : JSFile) (e : ε)
    (hpre : ∀ g ∈ pre, ∃ w, comp g.data = Except.ok w)
    (hf : comp f.data = Except.error e) :
    createZipFromFiles comp (pre ++ f :: post) = Except.error e ∧
    compress comp (CompressInput.files (pre ++ f :: post)) = Except.error e := by
  have hz := zipLoop_error comp f e hf pre hpre post
    { parts := [], centralHeaders := [], adler32Map := [], offset := 0 }
  refine ⟨?_, ?_⟩
  · unfold createZipFromFiles
    rw [hz]
    rfl
  · show createZipFromFiles comp (pre ++ f :: post) = Except.error e
    unfold createZipFromFiles
    rw [hz]
    rfl

/-- Witness for C8: a compressor failing on the second of three files. -/
theorem C8_compression_failure_aborts_witness :
    createZipFromFiles compFail
        ([{ name := [97], data := [1] }] ++ { name := [98], data := [] } ::
          [{ name := [99], data := [3] }]) = Except.error "stream aborted" ∧
      compress compFail (CompressInput.files
        ([{ name := [97], data := [1] }] ++ { name := [98], data := [] } ::
          [{ name := [99], data := [3] }])) = Except.error "stream aborted" := by
  apply C8_compression_failure_aborts compFail
    [{ name := [97], data := [1] }] [{ name := [99], data := [3] }]
    { name := [98], data := [] } "stream aborted"
  · intro g hg
    rw [List.mem_singleton] at hg
    subst hg
    exact ⟨[7, 8], rfl⟩
  · rfl

end FileCompressor

namespace FileCompressor

lemma ok_blob_eq (pc : List Nat → List Nat) (fs : List JSFile) (b : Blob)
    (hb : createZipFromFiles (pureComp pc) fs = Except.ok b) :
    b = { data := archiveBytes pc fs, type := "application/zip" } := by
  have h := createZip_eq pc fs
  rw [hb] at h
  exact Except.ok.inj h

/-- C5: inside the archive, the bytes of entry i starting at its local
offset are exactly the 30-byte little-endian local file header (signature
0x04034b50, version 20, flags 0, method 8, time and date 0, the entry's
crc32, compressedSize, uncompressedSize, filename length, extra length 0)
followed by the filename bytes, immediately followed by the entry's raw
deflate bytes. -/
theorem C5_local_header_layout (pc : List Nat → List Nat) (fs : List JSFile) (b : Blob)
    (i : Nat) (hb : createZipFromFiles (pureComp pc) fs = Except.ok b) (hi : i < fs.length) :
    (b.data.drop (offsetBefore pc fs i)).take (30 + (nthFile fs i).name.length) =
      [0x50, 0x4B, 0x03, 0x04] ++ le16 20 ++ le16 0 ++ le16 8 ++ le16 0 ++ le16 0 ++
        le32 (entryCrc (nthFile fs i)) ++ le32 (entryCSize pc (nthFile fs i)) ++
        le32 (nthFile fs i).data.length ++ le16 (nthFile fs i).name.length ++ le16 0 ++
        (nthFile fs i).name ∧
    (b.data.drop (offsetBefore pc fs i + (30 + (nthFile fs i).name.length))).take
        (entryCSize pc (nthFile fs i)) = entryRaw pc (nthFile fs i) := by
  rw [ok_blob_eq pc fs b hb]
  simp only [nthFile]
  obtain ⟨tail, htail⟩ := archive_local_suffix pc fs i hi
  constructor
  · rw [htail, localChunk, List.append_assoc]
    rw [show 30 + (fs.getD i default).name.length =
        (localHeaderBytes (entryCrc (fs.getD i default)) (entryCSize pc (fs.getD i default))
          (fs.getD i default).data.length (fs.getD i default).name).length from
      (localHeaderBytes_length _ _ _ _).symm]
    rw [List.take_left]
    rw [localHeaderBytes, show le32 0x04034b50 = [0x50, 0x4B, 0x03, 0x04] from rfl]
  · rw [← List.drop_drop, htail, localChunk, List.append_assoc]
    rw [show 30 + (fs.getD i default).name.length =
        (localHeaderBytes (entryCrc (fs.getD i default)) (entryCSize pc (fs.getD i default))
          (fs.getD i default).data.length (fs.getD i default).name).length from
      (localHeaderBytes_length _ _ _ _).symm]
    rw [List.drop_left]
    rw [show entryCSize pc (fs.getD i default) =
      (entryRaw pc (fs.getD i default)).length from rfl]
    rw [List.take_left]

/-- Witness for C5 on a one-file build with a framed compressor output. -/
theorem C5_local_header_layout_witness :
    ((archiveBytes pcTwo fsOne).drop (offsetBefore pcTwo fsOne 0)).take
        (30 + (nthFile fsOne 0).name.length) =
      [0x50, 0x4B, 0x03, 0x04] ++ le16 20 ++ le16 0 ++ le16 8 ++ le16 0 ++ le16 0 ++
        le32 (entryCrc (nthFile fsOne 0)) ++ le32 (entryCSize pcTwo (nthFile fsOne 0)) ++
        le32 (nthFile fsOne 0).data.length ++ le16 (nthFile fsOne 0).name.length ++
        le16 0 ++ (nthFile fsOne 0).name ∧
    ((archiveBytes pcTwo fsOne).drop (offsetBefore pcTwo fsOne 0 +
        (30 + (nthFile fsOne 0).name.length))).take (entryCSize pcTwo (nthFile fsOne 0)) =
      entryRaw pcTwo (nthFile fsOne 0) :=
  C5_local_header_layout pcTwo fsOne
    { data := archiveBytes pcTwo fsOne, type := "application/zip" } 0
    (createZip_eq pcTwo fsOne) (by decide)

/-- C2: the local-header offset recorded (little-endian, 32-bit) in
central directory header i equals the sum over all j before i of
(30 + filename length j + compressedSize j); the end record's
centralDirStart field equals that sum over all entries, which is the byte
offset immediately after the last entry's data; its centralDirSize field
equals the sum of the central header byte lengths; and both entry-count
fields equal the number of entries.  The bounds keep each stored value
inside its field width (the spec scopes out ZIP64 archives). -/
theorem C2_offsets_and_counts (pc : List Nat → List Nat) (fs : List JSFile) (b : Blob)
    (i : Nat) (hb : createZipFromFiles (pureComp pc) fs = Except.ok b) (hi : i < fs.length)
    (h1 : offsetBefore pc fs i < 4294967296)
    (h2 : offsetBefore pc fs fs.length < 4294967296)
    (h3 : cdSize pc fs < 4294967296)
    (h4 : fs.length < 65536) :
    leDec32 b.data (centralPos pc fs i + 42) = offsetBefore pc fs i ∧
    offsetBefore pc fs fs.length = ((fs.map (localChunk pc)).flatten).length ∧
    leDec32 b.data (endPos pc fs + 16) = offsetBefore pc fs fs.length ∧
    leDec32 b.data (endPos pc fs + 12) = cdSize pc fs ∧
    leDec16 b.data (endPos pc fs + 8) = fs.length ∧
    leDec16 b.data (endPos pc fs + 10) = fs.length := by
  rw [ok_blob_eq pc fs b hb]
  obtain ⟨tail, htail⟩ := archive_central_suffix pc fs i hi
  have hend := archive_end_suffix pc fs
  have he := eocd_fields fs.length (cdSize pc fs) (offsetBefore pc fs fs.length)
  refine ⟨?_, (localFlatten_length pc fs).symm, ?_, ?_, ?_, ?_⟩
  · rw [leDec32_shift, htail, centralChunk, centralHeaderBytes_offset_field,
      Nat.mod_eq_of_lt h1]
  · rw [leDec32_shift, hend, he.2.2.2, Nat.mod_eq_of_lt h2]
  · rw [leDec32_shift, hend, he.2.2.1, Nat.mod_eq_of_lt h3]
  · rw [leDec16_shift, hend, he.1, Nat.mod_eq_of_lt h4]
  · rw [leDec16_shift, hend, he.2.1, Nat.mod_eq_of_lt h4]

/-- Witness for C2 on a one-file build. -/
theorem C2_offsets_and_counts_witness :
    leDec32 (archiveBytes pcTwo fsOne) (centralPos pcTwo fsOne 0 + 42) =
        offsetBefore pcTwo fsOne 0 ∧
      offsetBefore pcTwo fsOne fsOne.length =
        ((fsOne.map (localChunk pcTwo)).flatten).length ∧
      leDec32 (archiveBytes pcTwo fsOne) (endPos pcTwo fsOne + 16) =
        offsetBefore pcTwo fsOne fsOne.length ∧
      leDec32 (archiveBytes pcTwo fsOne) (endPos pcTwo fsOne + 12) = cdSize pcTwo fsOne ∧
      leDec16 (archiveBytes pcTwo fsOne) (endPos pcTwo fsOne + 8) = fsOne.length ∧
      leDec16 (archiveBytes pcTwo fsOne) (endPos pcTwo fsOne + 10) = fsOne.length :=
  C2_offsets_and_counts pcTwo fsOne
    { data := archiveBytes pcTwo fsOne, type := "application/zip" } 0
    (createZip_eq pcTwo fsOne) (by decide) (by decide) (by decide) (by decide) (by decide)

end FileCompressor

namespace FileCompressor

/-- C6 (amended): the comment stored in central directory header i is
the lowercase 8-hex-digit encoding of the most recent Adler-32 recorded
for that entry's filename — the entry's own extracted checksum when its
compressor output is zlib-framed, otherwise the latest earlier same-named
framed entry's checksum, or 0 when there is none — and the header's
comment-length field equals the byte length of that comment, which is
exactly 8. -/
theorem C6_comment_stores_latest_adler (pc : List Nat → List Nat) (fs : List JSFile)
    (b : Blob) (i : Nat) (hb : createZipFromFiles (pureComp pc) fs = Except.ok b)
    (hi : i < fs.length) :
    (b.data.drop (centralPos pc fs i + (46 + (nthFile fs i).name.length))).take 8 =
      adlerComment (entryAdler pc (fs.take i).reverse (nthFile fs i)) ∧
    (adlerComment (entryAdler pc (fs.take i).reverse (nthFile fs i))).length = 8 ∧
    leDec16 b.data (centralPos pc fs i + 32) = 8 := by
  rw [ok_blob_eq pc fs b hb]
  simp only [nthFile]
  obtain ⟨tail, htail⟩ := archive_central_suffix pc fs i hi
  have hlen8 :
      (adlerComment (entryAdler pc (fs.take i).reverse (fs.getD i default))).length = 8 :=
    adlerComment_length (entryAdler_lt pc _ _)
  refine ⟨?_, hlen8, ?_⟩
  · rw [← List.drop_drop, htail, centralChunk, centralHeaderBytes_comment_suffix]
    conv_lhs =>
      rw [show (8 : Nat) =
        (adlerComment (entryAdler pc (fs.take i).reverse (fs.getD i default))).length from
        hlen8.symm]
    rw [List.take_left]
  · rw [leDec16_shift, htail, centralChunk, centralHeaderBytes_commentLen_field, hlen8]

/-- Witness for the amended C6: the second of two same-named entries whose
own output is unframed stores the first entry's checksum 5. -/
theorem C6_comment_stores_latest_adler_witness :
    ((archiveBytes pcDup fsDup).drop (centralPos pcDup fsDup 1 +
        (46 + (nthFile fsDup 1).name.length))).take 8 =
      adlerComment (entryAdler pcDup (fsDup.take 1).reverse (nthFile fsDup 1)) ∧
    (adlerComment (entryAdler pcDup (fsDup.take 1).reverse (nthFile fsDup 1))).length = 8 ∧
    leDec16 (archiveBytes pcDup fsDup) (centralPos pcDup fsDup 1 + 32) = 8 :=
  C6_comment_stores_latest_adler pcDup fsDup
    { data := archiveBytes pcDup fsDup, type := "application/zip" } 1
    (createZip_eq pcDup fsDup) (by decide)

/-- Counterexample to C6 as stated: with two files both named `[97]`,
where the first compressor output is zlib-framed with Adler-32 trailer 5
and the second output is unframed (so the second entry's own reframed
checksum is 0), the comment emitted for the second entry (at byte 165 of
the archive, the comment position of central header 1) is the hex of 5,
not the hex of that entry's checksum 0. -/
theorem C6_claim_counterexample :
    ((blobData (createZipFromFiles (pureComp pcDup) fsDup)).drop 165).take 8 =
        adlerComment 5 ∧
      (reframe (pcDup [2])).2 = 0 ∧
      centralPos pcDup fsDup 1 + (46 + (nthFile fsDup 1).name.length) = 165 ∧
      ((blobData (createZipFromFiles (pureComp pcDup) fsDup)).drop 165).take 8 ≠
        adlerComment ((reframe (pcDup [2])).2) := by
  refine ⟨by decide, by decide, by decide, by decide⟩

/-- C9: an entry with empty data still yields a full local and central
header pair: its crc32 is 0, its uncompressedSize is 0, and its
compressedSize is the compressor output length minus the 6 zlib framing
bytes, which is positive whenever the compressor emits a nonempty deflate
payload (deflate's minimum block overhead, stated here as the hypothesis
on the framed output length). -/
theorem C9_empty_entry (pc : List Nat → List Nat) (f : JSFile) (hdata : f.data = [])
    (hlen : 6 < (pc []).length) (h78 : (pc []).headD 0 = 0x78) :
    entryCrc f = 0 ∧ f.data.length = 0 ∧ 0 < entryCSize pc f ∧
    entryCSize pc f = (pc []).length - 6 ∧
    createZipFromFiles (pureComp pc) [f] = Except.ok
      { data := localHeaderBytes 0 (entryCSize pc f) 0 f.name ++ (entryRaw pc f ++
          (centralHeaderBytes 0 (entryCSize pc f) 0 f.name
            (adlerComment (entryAdler pc [] f)) 0 ++
            endOfCentralDirBytes 1 (54 + f.name.length)
              (30 + f.name.length + entryCSize pc f)))
        type := "application/zip" } := by
  have hcrc : entryCrc f = 0 := by
    rw [entryCrc, hdata]
    decide
  have hcs : entryCSize pc f = (pc []).length - 6 := by
    rw [entryCSize, entryRaw, hdata, reframe, if_pos ⟨by omega, h78⟩]
    dsimp only
    rw [List.length_take, List.length_drop]
    omega
  refine ⟨hcrc, by rw [hdata]; rfl, by rw [hcs]; omega, hcs, ?_⟩
  rw [createZip_eq]
  have hcd : cdSize pc [f] = 54 + f.name.length := by
    rw [cdSize, centralDir]
    rw [show centralsSpec pc [] 0 [f] = [centralChunk pc [] 0 f] from rfl]
    simp [centralChunk_length]
  have htot : offsetBefore pc [f] 1 = 30 + f.name.length + entryCSize pc f := by
    simp [offsetBefore, entrySize]
  have harch : archiveBytes pc [f] = localHeaderBytes 0 (entryCSize pc f) 0 f.name ++
      (entryRaw pc f ++ (centralHeaderBytes 0 (entryCSize pc f) 0 f.name
        (adlerComment (entryAdler pc [] f)) 0 ++
        endOfCentralDirBytes 1 (54 + f.name.length)
          (30 + f.name.length + entryCSize pc f))) := by
    rw [archiveBytes, hcd]
    simp only [List.length_singleton]
    rw [htot]
    rw [show ([f].map (localChunk pc)).flatten = localChunk pc f from by simp]
    rw [show (centralDir pc [f]).flatten = centralChunk pc [] 0 f from by
      rw [centralDir, show centralsSpec pc [] 0 [f] = [centralChunk pc [] 0 f] from rfl]
      simp]
    rw [localChunk, centralChunk, hcrc, hdata]
    simp [List.append_assoc]
  rw [harch]

/-- Witness for C9: the real deflate output of empty input, a file named
`[101]` with no data. -/
theorem C9_empty_entry_witness :
    entryCrc { name := [101], data := [] } = 0 ∧
    ({ name := [101], data := [] } : JSFile).data.length = 0 ∧
    0 < entryCSize pcEmpty { name := [101], data := [] } ∧
    entryCSize pcEmpty { name := [101], data := [] } = (pcEmpty []).length - 6 ∧
    createZipFromFiles (pureComp pcEmpty) [{ name := [101], data := [] }] = Except.ok
      { data := localHeaderBytes 0 (entryCSize pcEmpty { name := [101], data := [] }) 0
          [101] ++ (entryRaw pcEmpty { name := [101], data := [] } ++
          (centralHeaderBytes 0 (entryCSize pcEmpty { name := [101], data := [] }) 0 [101]
            (adlerComment (entryAdler pcEmpty [] { name := [101], data := [] })) 0 ++
            endOfCentralDirBytes 1 (54 + ([101] : List Nat).length)
              (30 + ([101] : List Nat).length +
                entryCSize pcEmpty { name := [101], data := [] })))
        type := "application/zip" } :=
  C9_empty_entry pcEmpty { name := [101], data := [] } rfl (by decide) (by decide)

end FileCompressor
